import Mathlib

/-!
# Verification of the input-remapper macro engine

A shallow embedding of `src/inputremapper/injection/macros/macro.py`:
the `Value`/`Variable` model, the type validator `_type_check`, the
builder methods of `Macro` (`add_key`, `add_hold`, `add_modify`, ...),
`get_capabilities`, and the runtime `Macro.run`.

The asyncio runtime is modelled as a deterministic interpreter:

* the single-threaded cooperative scheduler suspends exactly at `await`
  points; outer cancellation (`asyncio.CancelledError`, a `BaseException`
  that `except Exception` does not catch) is modelled as being delivered
  at one designated await point (`Ctx.cancelAt`), from which it unwinds
  every frame, exactly as an uncaught exception would in the source;
* `is_holding()` reads the trigger latch, which is flipped concurrently
  by the injector between awaits; the sequence of values those reads
  observe is part of the schedule (`GState.holds`; once the schedule is
  exhausted the trigger counts as released, which is its default state);
* the interpreter is fuel-indexed: a run that does not finish within the
  given fuel ends in the `stuck` outcome, which represents a run that is
  still suspended (has not returned).

Only error-level log lines are modelled (`GState.log`); debug lines are
irrelevant to every claim.
-/

namespace Remapper

/-! ## evdev constants (from `evdev.ecodes`) -/

def EV_KEY : Int := 1
def EV_REL : Int := 2
def REL_X : Int := 0
def REL_Y : Int := 1
def REL_HWHEEL : Int := 6
def REL_WHEEL : Int := 8

/-! ## Python values

Arguments of the builder functions and entries of the variable store are
Python objects: ints, floats, strings, `None`, or `Variable` instances.
Floats are modelled as the rational numbers they denote (every finite
IEEE float is a rational, and the only float operation the source
performs is `int(f)`, truncation toward zero, which is exact).
A `Variable` carries only its name; distinct `Variable` objects compare
unequal under Python `==` (object identity), and the modelled programs
never compare a `Variable` instance with itself.  -/

inductive Value where
  | vint (n : Int)
  | vfloat (q : ℚ)
  | vstr (s : String)
  | vnone
  | vvar (name : String)
  deriving DecidableEq, Repr

/-- Python `==` on the modelled values: `None == None`, numeric equality
across `int`/`float`, string equality; `Variable` falls back to object
identity (distinct instances, hence `false`). -/
def pyEq : Value → Value → Bool
  | .vint a, .vint b => a = b
  | .vint a, .vfloat q => (a : ℚ) = q
  | .vfloat q, .vint b => q = (b : ℚ)
  | .vfloat a, .vfloat b => a = b
  | .vstr a, .vstr b => a = b
  | .vnone, .vnone => true
  | _, _ => false

/-- Truncation toward zero, the semantics of Python `int(float)`:
`num / den` in integer T-division. -/
def pytrunc (q : ℚ) : Int := Int.tdiv q.num q.den

/-- Python `int(str)`: parse an optionally signed decimal numeral,
`none` when the string is not one (`ValueError`). -/
def pyIntOfStr (s : String) : Option Int :=
  let core (ds : List Char) : Option Int :=
    if ds ≠ [] ∧ ds.all Char.isDigit then
      some (ds.foldl (fun acc c => acc * 10 + (c.toNat - 48)) 0)
    else none
  match s.toList with
  | '-' :: ds => (core ds).map Int.neg
  | '+' :: ds => core ds
  | ds => core ds

/-- Python `str()` of the modelled values.  `str` of a `Variable` falls
back to `__repr__`, which is `<Variable "name">`. -/
def pyStr : Value → String
  | .vint n => toString n
  | .vfloat q => toString q
  | .vstr s => s
  | .vnone => "None"
  | .vvar name => "<Variable \"" ++ name ++ "\">"

/-- Python `int(value)`: identity on ints, truncation on floats, decimal
parse on strings; `TypeError` (`none`) on `None`. -/
def pyInt : Value → Option Int
  | .vint n => some n
  | .vfloat q => some (pytrunc q)
  | .vstr s => pyIntOfStr s
  | .vnone => none
  | .vvar _ => none

/-- Python `float(str)`: parse `digits[.digits]` with optional sign. -/
def pyFloatOfStr (s : String) : Option ℚ :=
  let digits (ds : List Char) : Option ℕ :=
    if ds ≠ [] ∧ ds.all Char.isDigit then
      some (ds.foldl (fun acc c => acc * 10 + (c.toNat - 48)) 0)
    else none
  let core (ds : List Char) : Option ℚ :=
    match ds.splitOn '.' with
    | [whole] => (digits whole).map (fun n => (n : ℚ))
    | [whole, frac] =>
      match digits whole, digits frac with
      | some w, some f => some ((w : ℚ) + (f : ℚ) / ((10 : ℚ) ^ frac.length))
      | _, _ => none
    | _ => none
  match s.toList with
  | '-' :: ds => (core ds).map Neg.neg
  | '+' :: ds => core ds
  | ds => core ds

/-- ASCII lower-casing of one character (the direction tokens and
kernel-table names are ASCII). -/
def pyCharLower (c : Char) : Char :=
  if 65 ≤ c.toNat ∧ c.toNat ≤ 90 then Char.ofNat (c.toNat + 32) else c

/-- ASCII upper-casing of one character. -/
def pyCharUpper (c : Char) : Char :=
  if 97 ≤ c.toNat ∧ c.toNat ≤ 122 then Char.ofNat (c.toNat - 32) else c

/-- Python `str.lower()`. -/
def pyLower (s : String) : String := ⟨s.toList.map pyCharLower⟩

/-- Python `str.upper()`. -/
def pyUpper (s : String) : String := ⟨s.toList.map pyCharUpper⟩

/-- Python `float(value)`. -/
def pyFloat : Value → Option ℚ
  | .vint n => some (n : ℚ)
  | .vfloat q => some q
  | .vstr s => pyFloatOfStr s
  | .vnone => none
  | .vvar _ => none

/-! ## The type validator `_type_check` -/

/-- The kinds that occur in `allowed_types` lists over plain values
(`Macro` and `None` kinds are handled at the builder signatures). -/
inductive PyType where
  | tint
  | tfloat
  | tstr
  deriving DecidableEq, Repr

/-- `allowed_type(value)`: the constructive coercion attempted first for
each allowed kind.  `str()` never fails. -/
def coerce : PyType → Value → Option Value
  | .tint, v => (pyInt v).map .vint
  | .tfloat, v => (pyFloat v).map .vfloat
  | .tstr, v => some (.vstr (pyStr v))

/-- `isinstance(value, allowed_type)` for the modelled kinds. -/
def isinst : Value → PyType → Bool
  | .vint _, .tint => true
  | .vfloat _, .tfloat => true
  | .vstr _, .tstr => true
  | _, _ => false

/-- The loop body of `_type_check`: for each allowed kind (where `none`
is the distinguished `None` kind), first attempt the constructive
coercion, then the `isinstance` test; otherwise move on. -/
def typeCheckAux : Value → List (Option PyType) → Option Value
  | _, [] => none
  | v, none :: rest => if v = .vnone then some v else typeCheckAux v rest
  | v, some t :: rest =>
    match coerce t v with
    | some v' => some v'
    | none => if isinst v t then some v else typeCheckAux v rest

/-- `_type_check(value, allowed_types, display_name, position)`:
a `Variable` is returned unchanged (resolved at runtime); otherwise the
first matching kind wins, and a `TypeError` is raised when none does. -/
def typeCheck (v : Value) (allowed : List (Option PyType))
    (displayName : Option String) (position : Option Nat) : Except String Value :=
  match v with
  | .vvar n => .ok (.vvar n)
  | _ =>
    match typeCheckAux v allowed with
    | some v' => .ok v'
    | none =>
      match displayName, position with
      | some dn, some pos =>
        .error ("TypeError: Expected parameter " ++ toString pos ++ " for " ++ dn
          ++ " to be one of the allowed types, but got " ++ pyStr v)
      | _, _ =>
        .error ("TypeError: Expected parameter to be one of the allowed types, but got "
          ++ pyStr v)

/-- Modelled from the spec: the *system mapping* (symbol → integer code)
is an external collaborator (`inputremapper.configs.system_mapping`, not
part of the analysed sources); the spec describes it as a lookup
`symbol → code | absent` over the kernel key names.  A representative
fragment with the standard kernel keycodes is used. -/
def system_mapping : List (String × Int) :=
  [("a", 30), ("b", 48), ("KEY_A", 30), ("KEY_B", 48),
   ("KEY_LEFTSHIFT", 42), ("Shift_L", 42), ("KEY_1", 2)]

/-- `_type_check_keyname(keyname)`: a `Variable` passes through; any
other value is turned into a string and resolved through the system
mapping, raising `KeyError` when absent.  Returns the keycode. -/
def typeCheckKeyname (keyname : Value) : Except String Value :=
  match keyname with
  | .vvar n => .ok (.vvar n)
  | v =>
    match system_mapping.lookup (pyStr v) with
    | some code => .ok (.vint code)
    | none => .error ("KeyError: Unknown key " ++ pyStr v)

/-- `_type_check_variablename(name)`: must be a string matching
`^[A-Za-z_][A-Za-z_0-9]*$`, else `SyntaxError`. -/
def legitVariableName (s : String) : Bool :=
  match s.toList with
  | [] => false
  | c :: cs => (c.isAlpha || c = '_') && cs.all (fun d => d.isAlphanum || d = '_')

def typeCheckVariablename (name : Value) : Except String Unit :=
  match name with
  | .vstr s =>
    if legitVariableName s then .ok ()
    else .error ("SyntaxError: not a legit variable name: " ++ s)
  | v => .error ("SyntaxError: not a legit variable name: " ++ pyStr v)

/-! ## The variable store and `_resolve`

Modelled from the spec: `macro_variables` is a `SharedDict`
(`inputremapper.ipc.shared_dict`, not part of the analysed sources); the
spec describes it as a process-wide keyed map with `get(name) → Value |
absent` and `set(name, Value)`, last writer wins.  It is modelled as an
association list onto which writes are consed, so the newest binding is
found first; an absent key reads as `None`, as `dict.get` returns. -/

abbrev Store := List (String × Value)

def storeGet (store : Store) (name : String) : Option Value :=
  store.lookup name

def storeSet (store : Store) (name : String) (v : Value) : Store :=
  (name, v) :: store

/-- `Variable.resolve`: `macro_variables.get(self.name)`, `None` when
absent. -/
def variableResolve (store : Store) (name : String) : Value :=
  (storeGet store name).getD .vnone

/-- `_resolve(argument, allowed_types)`: a non-`Variable` argument is
returned unchanged (no check); a `Variable` is looked up and, when a
kind list is given, passed through `_type_check`. -/
def resolve (store : Store) (argument : Value)
    (allowed : Option (List (Option PyType))) : Except String Value :=
  match argument with
  | .vvar n =>
    let value := variableResolve store n
    match allowed with
    | some kinds => typeCheck value kinds none none
    | none => .ok value
  | v => .ok v

/-! ## The macro tree

A `Macro` owns its source text `code`, the compiled task list, its own
capability set, the `running` flag, the `_new_event_arrived` signal and
`keystroke_sleep_ms`.  The Python `child_macros` list contains exactly
the child `Macro` objects captured by the tasks (every builder that
appends a child-running task also appends the same object to
`child_macros`), so children are recovered from the tasks and no
separate aliased list is kept.

Capabilities: the Python dict `{ev_type: set()}` may hold ints,
`Variable` objects or `None` as elements (and, through `add_event`, even
a `Variable` as a type key), so it is modelled as a flat list of
`(type, element)` `Value` pairs with membership semantics.

Each `Task` constructor records exactly the data its Python closure
captures. -/

abbrev Caps := List (Value × Value)

/-- One handler call `handler(type, code, value)`. -/
abbrev Event := Value × Value × Value

mutual

inductive Task where
  /-- `h()`: `lambda _: self._trigger_release_event.wait()` -/
  | holdWait : Task
  /-- `h(symbol)`: `code` is the build-time result of
  `_type_check_keyname` (an int, or a `Variable` passed through). -/
  | holdSymbol (code : Value) : Task
  /-- `h(macro)`: rerun the child while the trigger is held. -/
  | holdMacro (m : Macro) : Task
  /-- `m(modifier, macro)`: `code` resolved at build time. -/
  | modify (code : Int) (m : Macro) : Task
  /-- `r(repeats, macro)`: `repeats` after `_type_check`. -/
  | repeatT (repeats : Value) (m : Macro) : Task
  /-- `k(symbol)`: `code = system_mapping.get(str(symbol))`; `None`
  when the (variable) symbol is not in the mapping. -/
  | key (code : Value) : Task
  /-- `e(type, code, value)`: all three after build-time processing. -/
  | event (type_ : Value) (code : Value) (value : Value) : Task
  /-- the separate `self._keycode_pause` task appended by `add_event`. -/
  | keycodePause : Task
  /-- `mouse(direction, speed)`: axis code, sign, checked speed. -/
  | mouse (code : Int) (sign : Int) (speed : Value) : Task
  /-- `wheel(direction, speed)`: wheel code, per-emit value, speed. -/
  | wheel (code : Int) (value : Int) (speed : Value) : Task
  /-- `w(time)`. -/
  | wait (time : Value) : Task
  /-- `set(variable, value)`. -/
  | setVar (varname : String) (value : Value) : Task
  /-- `ifeq(variable, value, then, else)`: first operand kept as the
  raw argument used as a store key. -/
  | ifeqT (varname : Value) (value : Value)
      (then_ : Option Macro) (else_ : Option Macro) : Task
  /-- `if_eq(value_1, value_2, then, else)`. -/
  | ifEq (value1 : Value) (value2 : Value)
      (then_ : Option Macro) (else_ : Option Macro) : Task

inductive Macro where
  | mk (code : String) (tasks : List Task) (capabilities : Caps)
      (running : Bool) (newEventArrived : Bool)
      (keystrokeSleepMs : Option Int) : Macro

end

def Macro.code : Macro → String
  | .mk c _ _ _ _ _ => c

def Macro.tasks : Macro → List Task
  | .mk _ ts _ _ _ _ => ts

def Macro.capabilities : Macro → Caps
  | .mk _ _ caps _ _ _ => caps

def Macro.running : Macro → Bool
  | .mk _ _ _ r _ _ => r

def Macro.newEventArrived : Macro → Bool
  | .mk _ _ _ _ e _ => e

def Macro.keystrokeSleepMs : Macro → Option Int
  | .mk _ _ _ _ _ k => k

/-- `Macro.__init__`: empty task list, empty capabilities, not running,
no event arrived, `keystroke_sleep_ms` unset. -/
def Macro.new (code : String) : Macro := .mk code [] [] false false none

mutual

/-- `get_capabilities`: the macro's own capabilities merged with those
of all children, recursively.  In the flat-list model the merge is
concatenation; membership gives the set semantics. -/
def getCapabilities : Macro → Caps
  | .mk _ tasks caps _ _ _ => caps ++ tasksCaps tasks

def tasksCaps : List Task → Caps
  | [] => []
  | t :: ts => taskCaps t ++ tasksCaps ts

def taskCaps : Task → Caps
  | .holdMacro m => getCapabilities m
  | .modify _ m => getCapabilities m
  | .repeatT _ m => getCapabilities m
  | .ifeqT _ _ then_ else_ => optionCaps then_ ++ optionCaps else_
  | .ifEq _ _ then_ else_ => optionCaps then_ ++ optionCaps else_
  | _ => []

def optionCaps : Option Macro → Caps
  | some m => getCapabilities m
  | none => []

end

/-! ## Builder methods

Each `add_...` returns `Except String Macro`: `.error` models the
build-time exception (`TypeError`, `KeyError`, `SyntaxError`).  Python
argument positions that can only hold a `Macro` (checked there with
`_type_check(x, [Macro, ...])`, which always passes for actual `Macro`
objects) carry the Lean type `Macro`/`Option Macro` directly. -/

/-- The argument of `add_hold`: `None`, a child `Macro`, or a plain
value (key name or `Variable`). -/
inductive HoldArg where
  | noArg
  | mac (m : Macro)
  | val (v : Value)

/-- `add_hold(macro=None)`.  The opening
`_type_check(macro, [Macro, str, None], ...)` cannot fail on these
shapes: a `Macro` or `None` matches its kind, and every plain value
coerces with `str()`; its result is discarded by the source. -/
def addHold (self : Macro) (arg : HoldArg) : Except String Macro :=
  match arg with
  | .noArg => .ok (.mk self.code (self.tasks ++ [.holdWait]) self.capabilities
      self.running self.newEventArrived self.keystrokeSleepMs)
  | .mac child => .ok (.mk self.code (self.tasks ++ [.holdMacro child])
      self.capabilities self.running self.newEventArrived self.keystrokeSleepMs)
  | .val v => do
    let code ← typeCheckKeyname v
    .ok (.mk self.code (self.tasks ++ [.holdSymbol code])
      (self.capabilities ++ [(.vint EV_KEY, code)])
      self.running self.newEventArrived self.keystrokeSleepMs)

/-- `add_modify(modifier, macro)`: the modifier is stringified and
resolved through the system mapping at build time (`KeyError` when
absent); the child is registered and the task appended. -/
def addModify (self : Macro) (modifier : Value) (child : Macro) :
    Except String Macro :=
  match system_mapping.lookup (pyStr modifier) with
  | none => .error ("KeyError: Unknown modifier " ++ pyStr modifier)
  | some code =>
    .ok (.mk self.code (self.tasks ++ [.modify code child])
      (self.capabilities ++ [(.vint EV_KEY, .vint code)])
      self.running self.newEventArrived self.keystrokeSleepMs)

/-- `add_repeat(repeats, macro)`. -/
def addRepeat (self : Macro) (repeats : Value) (child : Macro) :
    Except String Macro := do
  let repeats ← typeCheck repeats [some .tint] (some "r (repeat)") (some 1)
  .ok (.mk self.code (self.tasks ++ [.repeatT repeats child]) self.capabilities
    self.running self.newEventArrived self.keystrokeSleepMs)

/-- `add_key(symbol)`: `_type_check_keyname` validates (its result is
discarded), then the symbol is stringified and looked up again; for a
`Variable` symbol the second lookup uses `str(Variable)` and yields
`None`, which is what the capability set and the task then carry. -/
def addKey (self : Macro) (symbol : Value) : Except String Macro := do
  let _ ← typeCheckKeyname symbol
  let code : Value :=
    match system_mapping.lookup (pyStr symbol) with
    | some c => .vint c
    | none => .vnone
  .ok (.mk self.code (self.tasks ++ [.key code])
    (self.capabilities ++ [(.vint EV_KEY, code)])
    self.running self.newEventArrived self.keystrokeSleepMs)

/-- Modelled from the spec: the kernel code table (`evdev.ecodes`,
an external collaborator: "a kernel code table name → code for
`e(...)`").  A representative fragment of the kernel input taxonomy. -/
def ecodes : List (String × Int) :=
  [("EV_KEY", 1), ("EV_REL", 2), ("EV_ABS", 3),
   ("REL_X", 0), ("REL_Y", 1), ("REL_HWHEEL", 6), ("REL_WHEEL", 8),
   ("KEY_A", 30), ("KEY_B", 48)]

/-- `add_event(type_, code, value)`: the three arguments are checked
with `[int, str]`; string type/code are resolved through the kernel
table (uppercased) at build time, `Variable`s stay; when the type is
`EV_REL` the codes `REL_X`, `REL_Y`, `REL_WHEEL` are declared, then the
code itself; the task emits once and a keystroke pause follows. -/
def addEvent (self : Macro) (type_ code value : Value) :
    Except String Macro := do
  let type_ ← typeCheck type_ [some .tint, some .tstr] (some "e (event)") (some 1)
  let code ← typeCheck code [some .tint, some .tstr] (some "e (event)") (some 2)
  let value ← typeCheck value [some .tint, some .tstr] (some "e (event)") (some 3)
  let type_ ← match type_ with
    | .vstr s =>
      match ecodes.lookup (pyUpper s) with
      | some n => Except.ok (Value.vint n)
      | none => Except.error ("KeyError: " ++ pyUpper s)
    | v => Except.ok v
  let code ← match code with
    | .vstr s =>
      match ecodes.lookup (pyUpper s) with
      | some n => Except.ok (Value.vint n)
      | none => Except.error ("KeyError: " ++ pyUpper s)
    | v => Except.ok v
  let relCaps : Caps :=
    if type_ = .vint EV_REL then
      [(.vint EV_REL, .vint REL_X), (.vint EV_REL, .vint REL_Y),
       (.vint EV_REL, .vint REL_WHEEL)]
    else []
  .ok (.mk self.code (self.tasks ++ [.event type_ code value, .keycodePause])
    (self.capabilities ++ relCaps ++ [(type_, code)])
    self.running self.newEventArrived self.keystrokeSleepMs)

/-- `add_mouse_capabilities`: the full footprint needed for the OS to
recognize the device as a mouse. -/
def mouseCapabilities : Caps :=
  [(.vint EV_REL, .vint REL_X), (.vint EV_REL, .vint REL_Y),
   (.vint EV_REL, .vint REL_WHEEL), (.vint EV_REL, .vint REL_HWHEEL)]

/-- The direction table of `add_mouse`. -/
def mouseTable (s : String) : Option (Int × Int) :=
  if s = "up" then some (REL_Y, -1)
  else if s = "down" then some (REL_Y, 1)
  else if s = "left" then some (REL_X, -1)
  else if s = "right" then some (REL_X, 1)
  else none

/-- The direction table of `add_wheel`. -/
def wheelTable (s : String) : Option (Int × Int) :=
  if s = "up" then some (REL_WHEEL, 1)
  else if s = "down" then some (REL_WHEEL, -1)
  else if s = "left" then some (REL_HWHEEL, 1)
  else if s = "right" then some (REL_HWHEEL, -1)
  else none

/-- `add_mouse(direction, speed)`: the direction check `[str]` coerces
any plain value with `str()` but leaves a `Variable`, on which the
subsequent `.lower()` raises; the lowercased direction indexes the
table (`KeyError` otherwise); speed is checked `[int]`; the full mouse
footprint is declared. -/
def addMouse (self : Macro) (direction speed : Value) : Except String Macro := do
  let direction ← typeCheck direction [some .tstr] (some "mouse") (some 1)
  let speed ← typeCheck speed [some .tint] (some "mouse") (some 2)
  match direction with
  | .vvar n => .error ("AttributeError: Variable " ++ n ++ " has no attribute lower")
  | d =>
    match mouseTable (pyLower (pyStr d)) with
    | none => .error ("KeyError: " ++ pyLower (pyStr d))
    | some (code, sign) =>
      .ok (.mk self.code (self.tasks ++ [.mouse code sign speed])
        (self.capabilities ++ mouseCapabilities)
        self.running self.newEventArrived self.keystrokeSleepMs)

/-- `add_wheel(direction, speed)`: same shape as `add_mouse`; the speed
value is only divided at runtime. -/
def addWheel (self : Macro) (direction speed : Value) : Except String Macro := do
  let direction ← typeCheck direction [some .tstr] (some "wheel") (some 1)
  let speed ← typeCheck speed [some .tint] (some "wheel") (some 2)
  match direction with
  | .vvar n => .error ("AttributeError: Variable " ++ n ++ " has no attribute lower")
  | d =>
    match wheelTable (pyLower (pyStr d)) with
    | none => .error ("KeyError: " ++ pyLower (pyStr d))
    | some (code, value) =>
      .ok (.mk self.code (self.tasks ++ [.wheel code value speed])
        (self.capabilities ++ mouseCapabilities)
        self.running self.newEventArrived self.keystrokeSleepMs)

/-- `add_wait(time)`. -/
def addWait (self : Macro) (time : Value) : Except String Macro := do
  let time ← typeCheck time [some .tint, some .tfloat] (some "wait") (some 1)
  .ok (.mk self.code (self.tasks ++ [.wait time]) self.capabilities
    self.running self.newEventArrived self.keystrokeSleepMs)

/-- `add_set(variable, value)`: the name must be a legit variable name
(`SyntaxError` otherwise); the task stores under it at runtime. -/
def addSet (self : Macro) (varname : Value) (value : Value) :
    Except String Macro := do
  let () ← typeCheckVariablename varname
  match varname with
  | .vstr s =>
    .ok (.mk self.code (self.tasks ++ [.setVar s value]) self.capabilities
      self.running self.newEventArrived self.keystrokeSleepMs)
  | _ => .error "SyntaxError: unreachable"

/-- `add_ifeq(variable, value, then, else)`: the legacy form; both
branches are registered as children at build time. -/
def addIfeq (self : Macro) (varname value : Value)
    (then_ else_ : Option Macro) : Except String Macro :=
  .ok (.mk self.code (self.tasks ++ [.ifeqT varname value then_ else_])
    self.capabilities self.running self.newEventArrived self.keystrokeSleepMs)

/-- `add_if_eq(value_1, value_2, then, else)`: both branches are
registered as children at build time. -/
def addIfEq (self : Macro) (value1 value2 : Value)
    (then_ else_ : Option Macro) : Except String Macro :=
  .ok (.mk self.code (self.tasks ++ [.ifEq value1 value2 then_ else_])
    self.capabilities self.running self.newEventArrived self.keystrokeSleepMs)

/-! ## The runtime

`Macro.run(handler)` and the step closures, as a fuel-indexed
deterministic interpreter over a schedule. -/

/-- The fixed surroundings of a run: where (if anywhere) outer
cancellation strikes in the global await sequence, and the
`macros.keystroke_sleep_ms` preset value. -/
structure Ctx where
  cancelAt : Option Nat
  sleepMs : Int

/-- The global mutable state threaded through a run: the process-wide
variable store, the number of awaits performed so far, the scheduled
outcomes of the `is_holding()` reads (exhausted schedule = trigger
released, its default state), and the error log. -/
structure GState where
  store : Store
  awaits : Nat
  holds : List Bool
  log : List String
  deriving DecidableEq, Repr

/-- How a (piece of a) run ended: returned normally, raised an
`Exception` (caught by `run`'s per-task `try`), was unwound by
`CancelledError` (a `BaseException`, not caught), or is still suspended
when the fuel runs out. -/
inductive Outcome where
  | ok
  | error (msg : String)
  | cancelled
  | stuck
  deriving DecidableEq, Repr

/-- One `await`: the suspension point at which outer cancellation can be
delivered.  Returns the new state and whether this await was the
cancelled one. -/
def doAwait (ctx : Ctx) (s : GState) : GState × Bool :=
  ({ s with awaits := s.awaits + 1 }, ctx.cancelAt == some s.awaits)

/-- One `is_holding()` read: consumes the next scheduled value; an
exhausted schedule reads as released (`false`). -/
def readHolding (s : GState) : GState × Bool :=
  match s.holds with
  | [] => (s, false)
  | b :: rest => ({ s with holds := rest }, b)

/-- `_resolve(argument)` with no allowed kinds: total. -/
def resolveRaw (store : Store) (v : Value) : Value :=
  match v with
  | .vvar n => variableResolve store n
  | v => v

/-- The store lookup `macro_variables.get(variable)` performed by the
`ifeq` task: the first operand is used as a store key as-is (a
non-string key is never present, reading as `None`). -/
def ifeqLookup (store : Store) : Value → Value
  | .vstr n => variableResolve store n
  | _ => .vnone

/-- Result of running one task. -/
structure TaskResult where
  task : Task
  caps : Caps
  state : GState
  events : List Event
  outcome : Outcome

/-- Result of running a task list. -/
structure TasksResult where
  tasks : List Task
  caps : Caps
  state : GState
  events : List Event
  outcome : Outcome

/-- Result of running a macro (the updated macro object). -/
structure RunResult where
  mac : Macro
  state : GState
  events : List Event
  outcome : Outcome

/-- Result of one of the emit loops (`mouse`/`wheel`). -/
structure LoopResult where
  state : GState
  events : List Event
  outcome : Outcome

/-- The `while self.is_holding()` loop of the `mouse` task: emit
`(EV_REL, axis, resolved_speed)` then a keystroke pause, until the
trigger reads released. -/
def runMouseLoop (ctx : Ctx) (fuel : Nat) (code : Int) (resolvedSpeed : Int)
    (s : GState) : LoopResult :=
  match fuel with
  | 0 => ⟨s, [], .stuck⟩
  | fuel + 1 =>
    let (s1, h) := readHolding s
    if h then
      let ev : Event := (.vint EV_REL, .vint code, .vint resolvedSpeed)
      let (s2, c) := doAwait ctx s1
      if c then ⟨s2, [ev], .cancelled⟩
      else
        let r := runMouseLoop ctx fuel code resolvedSpeed s2
        ⟨r.state, ev :: r.events, r.outcome⟩
    else ⟨s1, [], .ok⟩

/-- The `while self.is_holding()` loop of the `wheel` task: emit
`(EV_REL, code, value)`, then `await asyncio.sleep(1 / resolved_speed)`;
computing `1 / resolved_speed` raises `ZeroDivisionError` on speed `0`
and `TypeError` when the variable resolved to a `Variable` again —
after the emission of that iteration. -/
def runWheelLoop (ctx : Ctx) (fuel : Nat) (code : Int) (value : Int)
    (resolvedSpeed : Value) (s : GState) : LoopResult :=
  match fuel with
  | 0 => ⟨s, [], .stuck⟩
  | fuel + 1 =>
    let (s1, h) := readHolding s
    if h then
      let ev : Event := (.vint EV_REL, .vint code, .vint value)
      match resolvedSpeed with
      | .vint sp =>
        if sp = 0 then ⟨s1, [ev], .error "ZeroDivisionError: division by zero"⟩
        else
          let (s2, c) := doAwait ctx s1
          if c then ⟨s2, [ev], .cancelled⟩
          else
            let r := runWheelLoop ctx fuel code value resolvedSpeed s2
            ⟨r.state, ev :: r.events, r.outcome⟩
      | _ => ⟨s1, [ev], .error "TypeError: unsupported operand for division"⟩
    else ⟨s1, [], .ok⟩

mutual

/-- `Macro.run(handler)`: refuse (with a log line, no exception) when
already running; clear `_new_event_arrived`; read `keystroke_sleep_ms`;
set `running`; run the tasks in order, each in a `try` that logs any
`Exception` together with the source text and breaks; finally clear
`running`.  The final clear is skipped when `CancelledError` unwinds
the loop (and when the run is still suspended). -/
def runMacro (ctx : Ctx) (fuel : Nat) (m : Macro) (s : GState) : RunResult :=
  match fuel with
  | 0 => ⟨m, s, [], .stuck⟩
  | fuel + 1 =>
    if m.running then
      ⟨m, { s with log := ("Tried to run already running macro " ++ m.code) :: s.log },
        [], .ok⟩
    else
      let r := runTasks ctx fuel m.code m.tasks m.capabilities s
      ⟨.mk m.code r.tasks r.caps (if r.outcome = .ok then false else true)
          false (some ctx.sleepMs),
        r.state, r.events, r.outcome⟩

/-- The `for task in self.tasks` loop of `run`: a task that raises an
`Exception` is logged with the macro's source text and stops the
remaining tasks (the run itself still returns normally); cancellation
and suspension propagate. -/
def runTasks (ctx : Ctx) (fuel : Nat) (code : String) (ts : List Task)
    (caps : Caps) (s : GState) : TasksResult :=
  match fuel, ts with
  | _, [] => ⟨[], caps, s, [], .ok⟩
  | 0, t :: ts => ⟨t :: ts, caps, s, [], .stuck⟩
  | fuel + 1, t :: ts =>
    let r := runTask ctx fuel code t caps s
    match r.outcome with
    | .ok =>
      let r2 := runTasks ctx fuel code ts r.caps r.state
      ⟨r.task :: r2.tasks, r2.caps, r2.state, r.events ++ r2.events, r2.outcome⟩
    | .error e =>
      ⟨r.task :: ts, r.caps,
        { r.state with log := ("Macro " ++ code ++ " failed: " ++ e) :: r.state.log },
        r.events, .ok⟩
    | out => ⟨r.task :: ts, r.caps, r.state, r.events, out⟩

/-- One compiled step, exactly as its Python closure reads. -/
def runTask (ctx : Ctx) (fuel : Nat) (code : String) (t : Task)
    (caps : Caps) (s : GState) : TaskResult :=
  match fuel with
  | 0 => ⟨t, caps, s, [], .stuck⟩
  | fuel + 1 =>
    match t with
    | .holdWait =>
      -- await self._trigger_release_event.wait()
      let (s1, c) := doAwait ctx s
      ⟨t, caps, s1, [], if c then .cancelled else .ok⟩
    | .holdSymbol kcode =>
      -- resolved_code = _resolve(code, [int]); caps add; down; await; up
      match resolve s.store kcode (some [some .tint]) with
      | .error e => ⟨t, caps, s, [], .error e⟩
      | .ok rc =>
        let caps1 := caps ++ [(.vint EV_KEY, rc)]
        let down : Event := (.vint EV_KEY, rc, .vint 1)
        let (s1, c) := doAwait ctx s
        if c then ⟨t, caps1, s1, [down], .cancelled⟩
        else ⟨t, caps1, s1, [down, (.vint EV_KEY, rc, .vint 0)], .ok⟩
    | .holdMacro child =>
      -- while self.is_holding(): await macro.run(handler)
      let r := runHoldLoop ctx fuel child s
      ⟨.holdMacro r.mac, caps, r.state, r.events, r.outcome⟩
    | .modify mcode child =>
      -- resolved_code = _resolve(code, [int]) is the identity on the
      -- build-time int; caps add; pause; down; pause; child; pause; up; pause
      let caps1 := caps ++ [(.vint EV_KEY, .vint mcode)]
      let (s1, c1) := doAwait ctx s
      if c1 then ⟨.modify mcode child, caps1, s1, [], .cancelled⟩ else
      let down : Event := (.vint EV_KEY, .vint mcode, .vint 1)
      let (s2, c2) := doAwait ctx s1
      if c2 then ⟨.modify mcode child, caps1, s2, [down], .cancelled⟩ else
      let r := runMacro ctx fuel child s2
      match r.outcome with
      | .ok =>
        let (s3, c3) := doAwait ctx r.state
        if c3 then ⟨.modify mcode r.mac, caps1, s3, down :: r.events, .cancelled⟩ else
        let up : Event := (.vint EV_KEY, .vint mcode, .vint 0)
        let (s4, c4) := doAwait ctx s3
        if c4 then ⟨.modify mcode r.mac, caps1, s4, down :: r.events ++ [up], .cancelled⟩
        else ⟨.modify mcode r.mac, caps1, s4, down :: r.events ++ [up], .ok⟩
      | out => ⟨.modify mcode r.mac, caps1, r.state, down :: r.events, out⟩
    | .repeatT repeats child =>
      -- for _ in range(_resolve(repeats, [int])): await macro.run(handler)
      match resolve s.store repeats (some [some .tint]) with
      | .error e => ⟨t, caps, s, [], .error e⟩
      | .ok (.vint n) =>
        let r := runRepeatLoop ctx fuel child n.toNat s
        ⟨.repeatT repeats r.mac, caps, r.state, r.events, r.outcome⟩
      | .ok _ => ⟨t, caps, s, [], .error "TypeError: range argument is not an int"⟩
    | .key kcode =>
      -- down; pause; up; pause
      let down : Event := (.vint EV_KEY, kcode, .vint 1)
      let (s1, c1) := doAwait ctx s
      if c1 then ⟨t, caps, s1, [down], .cancelled⟩ else
      let up : Event := (.vint EV_KEY, kcode, .vint 0)
      let (s2, c2) := doAwait ctx s1
      if c2 then ⟨t, caps, s2, [down, up], .cancelled⟩
      else ⟨t, caps, s2, [down, up], .ok⟩
    | .event type_ ecode value =>
      -- lambda handler: handler(type_, code, value) — synchronous
      ⟨t, caps, s, [(type_, ecode, value)], .ok⟩
    | .keycodePause =>
      let (s1, c) := doAwait ctx s
      ⟨t, caps, s1, [], if c then .cancelled else .ok⟩
    | .mouse mcode sign speed =>
      -- resolved_speed = value * _resolve(speed, [int]), then the loop
      match resolve s.store speed (some [some .tint]) with
      | .error e => ⟨t, caps, s, [], .error e⟩
      | .ok (.vint sp) =>
        let r := runMouseLoop ctx fuel mcode (sign * sp) s
        ⟨t, caps, r.state, r.events, r.outcome⟩
      | .ok _ => ⟨t, caps, s, [], .error "TypeError: unsupported operand for mul"⟩
    | .wheel wcode value speed =>
      -- resolved_speed = _resolve(speed, [int]), then the loop
      match resolve s.store speed (some [some .tint]) with
      | .error e => ⟨t, caps, s, [], .error e⟩
      | .ok rsp =>
        let r := runWheelLoop ctx fuel wcode value rsp s
        ⟨t, caps, r.state, r.events, r.outcome⟩
    | .wait time =>
      -- await asyncio.sleep(_resolve(time, [int, float]) / 1000)
      match resolve s.store time (some [some .tint, some .tfloat]) with
      | .error e => ⟨t, caps, s, [], .error e⟩
      | .ok (.vvar _) => ⟨t, caps, s, [], .error "TypeError: unsupported operand for division"⟩
      | .ok _ =>
        let (s1, c) := doAwait ctx s
        ⟨t, caps, s1, [], if c then .cancelled else .ok⟩
    | .setVar varname value =>
      -- resolved_value = _resolve(value) is computed (for the debug
      -- log) and discarded; the raw `value` is what gets stored
      ⟨t, caps, { s with store := storeSet s.store varname value }, [], .ok⟩
    | .ifeqT varname value then_ else_ =>
      -- set_value = macro_variables.get(variable); value is compared raw
      if pyEq (ifeqLookup s.store varname) value then
        match then_ with
        | some th =>
          let r := runMacro ctx fuel th s
          ⟨.ifeqT varname value (some r.mac) else_, caps, r.state, r.events, r.outcome⟩
        | none => ⟨t, caps, s, [], .ok⟩
      else
        match else_ with
        | some el =>
          let r := runMacro ctx fuel el s
          ⟨.ifeqT varname value then_ (some r.mac), caps, r.state, r.events, r.outcome⟩
        | none => ⟨t, caps, s, [], .ok⟩
    | .ifEq v1 v2 then_ else_ =>
      -- both operands go through _resolve (no allowed kinds)
      if pyEq (resolveRaw s.store v1) (resolveRaw s.store v2) then
        match then_ with
        | some th =>
          let r := runMacro ctx fuel th s
          ⟨.ifEq v1 v2 (some r.mac) else_, caps, r.state, r.events, r.outcome⟩
        | none => ⟨t, caps, s, [], .ok⟩
      else
        match else_ with
        | some el =>
          let r := runMacro ctx fuel el s
          ⟨.ifEq v1 v2 then_ (some r.mac), caps, r.state, r.events, r.outcome⟩
        | none => ⟨t, caps, s, [], .ok⟩

/-- The `while self.is_holding()` loop of `h(macro)`: the child is run
to completion between the trigger reads, never truncated. -/
def runHoldLoop (ctx : Ctx) (fuel : Nat) (m : Macro) (s : GState) : RunResult :=
  match fuel with
  | 0 => ⟨m, s, [], .stuck⟩
  | fuel + 1 =>
    let (s1, h) := readHolding s
    if h then
      let r := runMacro ctx fuel m s1
      match r.outcome with
      | .ok =>
        let r2 := runHoldLoop ctx fuel r.mac r.state
        ⟨r2.mac, r2.state, r.events ++ r2.events, r2.outcome⟩
      | out => ⟨r.mac, r.state, r.events, out⟩
    else ⟨m, s1, [], .ok⟩

/-- The `for _ in range(n)` loop of `r(n, macro)`. -/
def runRepeatLoop (ctx : Ctx) (fuel : Nat) (m : Macro) (n : Nat) (s : GState) :
    RunResult :=
  match fuel with
  | 0 => ⟨m, s, [], .stuck⟩
  | fuel + 1 =>
    match n with
    | 0 => ⟨m, s, [], .ok⟩
    | n + 1 =>
      let r := runMacro ctx fuel m s
      match r.outcome with
      | .ok =>
        let r2 := runRepeatLoop ctx fuel r.mac n r.state
        ⟨r2.mac, r2.state, r.events ++ r2.events, r2.outcome⟩
      | out => ⟨r.mac, r.state, r.events, out⟩

end

/-! ## Build-time capability discipline

`wellBuilt` records what every builder guarantees about the macro it
returns: each step that emits with a *build-time* code (`k`, `e`,
`mouse`, `wheel`) already has its `(type, code)` pair in the macro's own
capability set, and all child macros are well-built in turn.  (The
`h(symbol)` and `m(...)` steps re-add their resolved code at runtime, so
they carry no build-time obligation.) -/

mutual

def wellBuilt : Macro → Bool
  | .mk _ tasks caps _ _ _ => wellBuiltTasks tasks caps

def wellBuiltTasks : List Task → Caps → Bool
  | [], _ => true
  | t :: ts, caps => wellBuiltTask t caps && wellBuiltTasks ts caps

def wellBuiltTask : Task → Caps → Bool
  | .holdWait, _ => true
  | .holdSymbol _, _ => true
  | .holdMacro m, _ => wellBuilt m
  | .modify _ m, _ => wellBuilt m
  | .repeatT _ m, _ => wellBuilt m
  | .key kcode, caps => decide ((Value.vint EV_KEY, kcode) ∈ caps)
  | .event type_ ecode _, caps => decide ((type_, ecode) ∈ caps)
  | .keycodePause, _ => true
  | .mouse mcode _ _, caps => decide ((Value.vint EV_REL, Value.vint mcode) ∈ caps)
  | .wheel wcode _ _, caps => decide ((Value.vint EV_REL, Value.vint wcode) ∈ caps)
  | .wait _, _ => true
  | .setVar _ _, _ => true
  | .ifeqT _ _ then_ else_, _ => wellBuiltOpt then_ && wellBuiltOpt else_
  | .ifEq _ _ then_ else_, _ => wellBuiltOpt then_ && wellBuiltOpt else_

def wellBuiltOpt : Option Macro → Bool
  | some m => wellBuilt m
  | none => true

end

/-- The `(type, code)` pair an emitted event declares on the device. -/
def evPair (e : Event) : Value × Value := (e.1, e.2.1)

/-- Every emitted event's `(type, code)` pair lies in the capability
list. -/
def covers (evs : List Event) (cs : Caps) : Prop :=
  ∀ e ∈ evs, evPair e ∈ cs

/-! ## Concrete fixtures used by the counterexamples and witnesses -/

/-- A context with no cancellation and `keystroke_sleep_ms = 10`. -/
def ctxNone : Ctx := ⟨none, 10⟩

/-- A context whose `n`-th await is cancelled by the injector. -/
def ctxCancelAt (n : Nat) : Ctx := ⟨some n, 10⟩

/-- Empty store, fresh schedule. -/
def state0 : GState := ⟨[], 0, [], []⟩

/-- Extract the macro from a successful build (fixtures only; every use
is paired with a proof that the build succeeded). -/
def getOk : Except String Macro → Macro
  | .ok m => m
  | .error _ => Macro.new ""

/-- `k(a)` -/
def kaMac : Macro := getOk (addKey (Macro.new "k(a)") (.vstr "a"))

/-- `k(b)` -/
def kbMac : Macro := getOk (addKey (Macro.new "k(b)") (.vstr "b"))

/-- `h(a)` -/
def holdAMac : Macro := getOk (addHold (Macro.new "h(a)") (.val (.vstr "a")))

/-- `h($foo)` — the hold key name is a late-bound variable. -/
def holdFooMac : Macro := getOk (addHold (Macro.new "h($foo)") (.val (.vvar "foo")))

/-- Store holding `foo = 30` (`KEY_A`). -/
def stateFoo30 : GState := ⟨[("foo", .vint 30)], 0, [], []⟩

/-- `set(a,$b)` -/
def setABMac : Macro := getOk (addSet (Macro.new "set(a,$b)") (.vstr "a") (.vvar "b"))

/-- Store holding `b = 5`. -/
def stateB5 : GState := ⟨[("b", .vint 5)], 0, [], []⟩

/-- `set(a,$b).if_eq($a,$b,k(a),k(b))` -/
def setIfEqMac : Macro :=
  getOk (addIfEq setABMac (.vvar "a") (.vvar "b") (some kaMac) (some kbMac))

/-- `ifeq(foo,$blub,k(a),k(b))` -/
def ifeqMac : Macro :=
  getOk (addIfeq (Macro.new "ifeq(foo,$blub,k(a),k(b))") (.vstr "foo") (.vvar "blub")
    (some kaMac) (some kbMac))

/-- Store holding `foo = 5` and `blub = 5`. -/
def stateFooBlub : GState := ⟨[("foo", .vint 5), ("blub", .vint 5)], 0, [], []⟩

/-- `wheel(up,0)` -/
def wheelZeroMac : Macro :=
  getOk (addWheel (Macro.new "wheel(up,0)") (.vstr "up") (.vint 0))

/-- A schedule on which the trigger reads held once, then released. -/
def stateHold1 : GState := ⟨[], 0, [true], []⟩

/-- `e(EV_REL, REL_X, 1)` with the type given symbolically. -/
def eventRelMac : Macro :=
  getOk (addEvent (Macro.new "e(EV_REL,REL_X,1)") (.vstr "EV_REL") (.vint 0) (.vint 1))

/-- The float `2.9`, i.e. the rational 29/10, given in normal form so
that it kernel-reduces. -/
def float29 : ℚ := ⟨29, 10, by norm_num, by norm_num⟩

/-- `r(2.9, k(a))` — a float repeat count. -/
def repeatFracMac : Macro :=
  getOk (addRepeat (Macro.new "r(2.9,k(a))") (.vfloat float29) kaMac)

/-- A macro whose `running` flag is already set. -/
def runningMac : Macro := .mk "k(a)" [] [] true false none

/-- `r($x, k(a))` — resolving `$x` fails at step time when `x` is
unset. -/
def repeatVarMac : Macro :=
  getOk (addRepeat (Macro.new "r($x,k(a))") (.vvar "x") kaMac)

/-! ## Claim theorems -/

/-- C1 (counterexample): the `h(a)` hold-symbol step emits
`(EV_KEY, 30, 1)` and, when the inner `trigger_release` await is
cancelled, never emits the matching `(EV_KEY, 30, 0)` — the run unwinds
with the key still pressed (`running` even stays set).  The claim that
every step releases its pressed key on *every* exit path including
cancellation is false of the code. -/
theorem holdSymbol_leaks_on_cancellation :
    (addHold (Macro.new "h(a)") (.val (.vstr "a"))).isOk = true ∧
    (runMacro (ctxCancelAt 0) 10 holdAMac state0).events =
      [(.vint EV_KEY, .vint 30, .vint 1)] ∧
    (Value.vint EV_KEY, Value.vint 30, Value.vint 0) ∉
      (runMacro (ctxCancelAt 0) 10 holdAMac state0).events ∧
    (runMacro (ctxCancelAt 0) 10 holdAMac state0).outcome = .cancelled := by
  decide

/-- C1 (amended): on runs in which no cancellation is delivered, the
hold-symbol step and the modify step do balance their key events: a
hold-symbol step that returns normally emits exactly its key-down
followed by the matching key-up (the trigger-release exit), and a
modify step that returns normally emits its modifier-down first and the
matching modifier-up last, around the child's events.  Under
cancellation of the inner await the key-up is skipped (see the
counterexample). -/
theorem key_release_without_cancellation (ctx : Ctx) (fuel : Nat) (code : String)
    (caps : Caps) (s : GState) (hnc : ctx.cancelAt = none) :
    (∀ v, (runTask ctx fuel code (.holdSymbol v) caps s).outcome = .ok →
      ∃ rc, (runTask ctx fuel code (.holdSymbol v) caps s).events =
        [(.vint EV_KEY, rc, .vint 1), (.vint EV_KEY, rc, .vint 0)]) ∧
    (∀ mcode child, (runTask ctx fuel code (.modify mcode child) caps s).outcome = .ok →
      ∃ mid, (runTask ctx fuel code (.modify mcode child) caps s).events =
        (.vint EV_KEY, .vint mcode, .vint 1) :: mid ++
          [(.vint EV_KEY, .vint mcode, .vint 0)]) := by
  have hawait : ∀ s' : GState, doAwait ctx s' = ({ s' with awaits := s'.awaits + 1 }, false) := by
    intro s'
    simp [doAwait, hnc]
  constructor
  · intro v hok
    match fuel with
    | 0 => simp [runTask] at hok
    | fuel + 1 =>
      simp only [runTask] at hok ⊢
      cases hres : resolve s.store v (some [some .tint]) with
      | error e => simp [hres] at hok
      | ok rc =>
        simp only [hres, hawait, if_neg Bool.false_ne_true, Bool.false_eq_true,
          if_false]
        exact ⟨rc, rfl⟩
  · intro mcode child hok
    match fuel with
    | 0 => simp [runTask] at hok
    | fuel + 1 =>
      simp only [runTask, hawait, Bool.false_eq_true, if_false] at hok ⊢
      revert hok
      cases hout : (runMacro ctx fuel child
          ⟨s.store, s.awaits + 1 + 1, s.holds, s.log⟩).outcome with
      | ok => intro hok; exact ⟨_, rfl⟩
      | error e => intro hok; simp at hok
      | cancelled => intro hok; simp at hok
      | stuck => intro hok; simp at hok

/-- C1 (witness for the amended theorem): at `fuel = 10`, no
cancellation, the `h(symbol)` step for keycode 30 on the empty state
emits exactly the down/up pair. -/
theorem key_release_without_cancellation_witness :
    ∃ rc, (runTask ctxNone 10 "h(a)" (.holdSymbol (.vint 30)) [] state0).events =
      [(.vint EV_KEY, rc, .vint 1), (.vint EV_KEY, rc, .vint 0)] :=
  (key_release_without_cancellation ctxNone 10 "h(a)" [] state0 rfl).1
    (.vint 30) (by decide)

/-- C3 (code bug, evaluated at the failing input): running `set(a,$b)`
with `b = 5` stores the unresolved `Variable` object under `a` — the
step computes the resolved value only for its debug log and assigns the
raw `value` — so the store does not map `a` to `5`. -/
theorem set_stores_unresolved_value :
    (addSet (Macro.new "set(a,$b)") (.vstr "a") (.vvar "b")).isOk = true ∧
    (runMacro ctxNone 10 setABMac stateB5).state.store =
      [("a", .vvar "b"), ("b", .vint 5)] ∧
    storeGet (runMacro ctxNone 10 setABMac stateB5).state.store "a" ≠
      some (.vint 5) ∧
    (runMacro ctxNone 10 setABMac stateB5).outcome = .ok := by
  decide

/-- C4 (code bug, evaluated at the failing input): after `set(a,$b)`
with `b = 5`, the step `if_eq($a,$b,k(a),k(b))` compares the stored
`Variable` object (what `set` wrote) against `5` and takes the *else*
branch, emitting `KEY_B` (48) and never `KEY_A` (30) — the claim that
`set(x,v); if_eq($x,v,...)` always takes the `then` branch fails for a
variable-reference `v`. -/
theorem set_ifeq_takes_else_branch :
    (addIfEq setABMac (.vvar "a") (.vvar "b") (some kaMac) (some kbMac)).isOk = true ∧
    (runMacro ctxNone 20 setIfEqMac stateB5).events =
      [(.vint EV_KEY, .vint 48, .vint 1), (.vint EV_KEY, .vint 48, .vint 0)] ∧
    (Value.vint EV_KEY, Value.vint 30, Value.vint 1) ∉
      (runMacro ctxNone 20 setIfEqMac stateB5).events := by
  decide

/-- C7: a second `run` on a live macro (`running = true`) is rejected:
it logs a line, raises nothing (outcome `ok`), executes no step (no
events), and returns the macro object completely unchanged — `running`,
the task list, the capability set, the event-arrived signal and
`keystroke_sleep_ms` are exactly as before. -/
theorem run_rejects_reentry (ctx : Ctx) (fuel : Nat) (m : Macro) (s : GState)
    (h : m.running = true) :
    runMacro ctx (fuel + 1) m s =
      ⟨m, { s with log := ("Tried to run already running macro " ++ m.code) :: s.log },
        [], .ok⟩ := by
  simp [runMacro, h]

/-- C7 (witness): the rejected re-entry at a concrete macro. -/
theorem run_rejects_reentry_witness :
    runMacro ctxNone 5 runningMac state0 =
      ⟨runningMac,
        { state0 with
          log := ("Tried to run already running macro " ++ runningMac.code) :: state0.log },
        [], .ok⟩ :=
  run_rejects_reentry ctxNone 4 runningMac state0 rfl

/-- C8 (counterexample): `wheel(up, 0)` with the literal speed `0`
builds successfully — `_type_check` validates kinds only and never
rejects the value `0` — contradicting the claim that the builder
rejects it at build time. -/
theorem wheel_zero_builds :
    (addWheel (Macro.new "wheel(up,0)") (.vstr "up") (.vint 0)).isOk = true := by
  decide

/-- C8 (amended): `wheel(up, 0)` builds; the division by zero happens
only at runtime, and only if the trigger is held at the first loop
iteration: the step emits one scroll event, then `1 / 0` raises
`ZeroDivisionError`, which `run` logs with the source text and which
aborts the step (outcome `ok`, `running` cleared).  When the trigger is
already released, the loop body never runs and no error occurs at
all. -/
theorem wheel_zero_aborts_at_runtime :
    (addWheel (Macro.new "wheel(up,0)") (.vstr "up") (.vint 0)).isOk = true ∧
    (runMacro ctxNone 10 wheelZeroMac stateHold1).events =
      [(.vint EV_REL, .vint REL_WHEEL, .vint 1)] ∧
    (runMacro ctxNone 10 wheelZeroMac stateHold1).state.log =
      ["Macro wheel(up,0) failed: ZeroDivisionError: division by zero"] ∧
    (runMacro ctxNone 10 wheelZeroMac stateHold1).outcome = .ok ∧
    (runMacro ctxNone 10 wheelZeroMac stateHold1).mac.running = false ∧
    (runMacro ctxNone 10 wheelZeroMac state0).events = [] ∧
    (runMacro ctxNone 10 wheelZeroMac state0).state.log = [] := by
  decide

/-- C9 (counterexample): `e(EV_REL, REL_X, 1)` declares `REL_X`,
`REL_Y` and `REL_WHEEL` but *not* `REL_HWHEEL` (code 6): `add_event`
inlines only three of the four mouse-footprint codes instead of calling
`add_mouse_capabilities`. -/
theorem event_rel_missing_hwheel :
    (addEvent (Macro.new "e(EV_REL,REL_X,1)") (.vstr "EV_REL") (.vint 0)
      (.vint 1)).isOk = true ∧
    (Value.vint EV_REL, Value.vint REL_HWHEEL) ∉ getCapabilities eventRelMac := by
  decide

/-- C9 (amended): `add_event` with type `EV_REL` — given numerically or
as the symbolic name resolved through the kernel table at build time —
declares exactly `REL_X`, `REL_Y`, `REL_WHEEL` and the emitted code
itself (no `REL_HWHEEL`). -/
theorem event_rel_caps (m : Macro) (c v : Int) :
    addEvent m (.vint 2) (.vint c) (.vint v) = .ok (.mk m.code
      (m.tasks ++ [.event (.vint 2) (.vint c) (.vint v), .keycodePause])
      (m.capabilities ++
        [(.vint EV_REL, .vint REL_X), (.vint EV_REL, .vint REL_Y),
         (.vint EV_REL, .vint REL_WHEEL)] ++ [(.vint 2, .vint c)])
      m.running m.newEventArrived m.keystrokeSleepMs) ∧
    addEvent m (.vstr "EV_REL") (.vint c) (.vint v) = .ok (.mk m.code
      (m.tasks ++ [.event (.vint 2) (.vint c) (.vint v), .keycodePause])
      (m.capabilities ++
        [(.vint EV_REL, .vint REL_X), (.vint EV_REL, .vint REL_Y),
         (.vint EV_REL, .vint REL_WHEEL)] ++ [(.vint 2, .vint c)])
      m.running m.newEventArrived m.keystrokeSleepMs) := by
  constructor <;> rfl

/-- C10: `_type_check` tries the constructive coercion `int(...)`
before any `isinstance` check, so a float passed where `[int]` is
allowed is silently truncated toward zero instead of rejected — for
every float `f`, `_type_check(f, [int], "r (repeat)", 1)` returns
`int(f)` — and consequently `r(2.9, k(a))` builds and runs its child
exactly 2 times. -/
theorem typeCheck_float_truncates :
    (∀ q : ℚ, typeCheck (.vfloat q) [some .tint] (some "r (repeat)") (some 1) =
      .ok (.vint (pytrunc q))) ∧
    (addRepeat (Macro.new "r(2.9,k(a))") (.vfloat float29) kaMac).isOk = true ∧
    (runMacro ctxNone 20 repeatFracMac state0).events =
      [(.vint EV_KEY, .vint 30, .vint 1), (.vint EV_KEY, .vint 30, .vint 0),
       (.vint EV_KEY, .vint 30, .vint 1), (.vint EV_KEY, .vint 30, .vint 0)] ∧
    (runMacro ctxNone 20 repeatFracMac state0).outcome = .ok := by
  refine ⟨fun q => ?_, by decide, by decide, by decide⟩
  simp [typeCheck, typeCheckAux, coerce, pyInt]

theorem tasksCaps_append (ts1 ts2 : List Task) :
    tasksCaps (ts1 ++ ts2) = tasksCaps ts1 ++ tasksCaps ts2 := by
  induction ts1 with
  | nil => simp [tasksCaps]
  | cons t ts ih => simp [tasksCaps, ih]

/-- C5 (counterexample): `ifeq(foo, $blub, k(a), k(b))` with both `foo`
and `blub` holding `5`: the claim says the second operand, being a
variable reference, is dereferenced (so `5 == 5` and the then branch
runs); the code compares the stored `5` with the raw `Variable` object
and takes the else branch, emitting `KEY_B` (48), never `KEY_A`
(30). -/
theorem ifeq_compares_second_operand_raw :
    (addIfeq (Macro.new "ifeq(foo,$blub,k(a),k(b))") (.vstr "foo") (.vvar "blub")
      (some kaMac) (some kbMac)).isOk = true ∧
    (runMacro ctxNone 20 ifeqMac stateFooBlub).events =
      [(.vint EV_KEY, .vint 48, .vint 1), (.vint EV_KEY, .vint 48, .vint 0)] ∧
    (Value.vint EV_KEY, Value.vint 30, Value.vint 1) ∉
      (runMacro ctxNone 20 ifeqMac stateFooBlub).events := by
  decide

/-- C5 (amended): the `ifeq` step looks up the *stored value* of its
first operand (used as a store key literally) and compares it — by
Python value equality — with the second operand *unresolved* (a
`Variable` second operand is compared as the object itself); the
`if_eq` step resolves both operands and compares the results; in either
case the matching present branch runs.  Both branch macros are
registered as children at build time, so their capabilities aggregate
into `get_capabilities` regardless of which branch is ever taken. -/
theorem ifeq_if_eq_semantics (ctx : Ctx) (fuel : Nat) (code : String)
    (caps : Caps) (s : GState) :
    (∀ varname value th el,
      (runTask ctx (fuel + 1) code (.ifeqT varname value (some th) (some el))
          caps s).events =
        (if pyEq (ifeqLookup s.store varname) value then runMacro ctx fuel th s
         else runMacro ctx fuel el s).events) ∧
    (∀ v1 v2 th el,
      (runTask ctx (fuel + 1) code (.ifEq v1 v2 (some th) (some el))
          caps s).events =
        (if pyEq (resolveRaw s.store v1) (resolveRaw s.store v2) then
          runMacro ctx fuel th s
         else runMacro ctx fuel el s).events) ∧
    (∀ m varname value th el, ∃ m',
      addIfeq m varname value (some th) (some el) = .ok m' ∧
      getCapabilities th ⊆ getCapabilities m' ∧
      getCapabilities el ⊆ getCapabilities m') ∧
    (∀ m v1 v2 th el, ∃ m',
      addIfEq m v1 v2 (some th) (some el) = .ok m' ∧
      getCapabilities th ⊆ getCapabilities m' ∧
      getCapabilities el ⊆ getCapabilities m') := by
  refine ⟨?_, ?_, ?_, ?_⟩
  · intro varname value th el
    simp only [runTask]
    split <;> rfl
  · intro v1 v2 th el
    simp only [runTask]
    split <;> rfl
  · intro m varname value th el
    refine ⟨_, rfl, ?_, ?_⟩ <;>
    · intro x hx
      simp [getCapabilities, tasksCaps_append, tasksCaps, taskCaps, optionCaps]
      tauto
  · intro m v1 v2 th el
    refine ⟨_, rfl, ?_, ?_⟩ <;>
    · intro x hx
      simp [getCapabilities, tasksCaps_append, tasksCaps, taskCaps, optionCaps]
      tauto

/-- C5 (witness): at concrete inputs, the `ifeq` step with `foo = 5`
and a raw second operand `5` emits exactly the then branch's events. -/
theorem ifeq_if_eq_semantics_witness :
    (runTask ctxNone 21 "ifeq" (.ifeqT (.vstr "foo") (.vint 5) (some kaMac)
        (some kbMac)) [] ⟨[("foo", .vint 5)], 0, [], []⟩).events =
      (if pyEq (ifeqLookup [("foo", .vint 5)] (.vstr "foo")) (.vint 5) then
        runMacro ctxNone 20 kaMac ⟨[("foo", .vint 5)], 0, [], []⟩
       else runMacro ctxNone 20 kbMac ⟨[("foo", .vint 5)], 0, [], []⟩).events :=
  (ifeq_if_eq_semantics ctxNone 20 "ifeq" []
    ⟨[("foo", .vint 5)], 0, [], []⟩).1 (.vstr "foo") (.vint 5) kaMac kbMac

/-- C6: a step that raises an exception during `run` is logged together
with the macro's source text (`Macro "<code>" failed: <e>`), aborts all
later steps — they are neither executed nor modified, no further events
are emitted, and the loop breaks with a normal return — and the
`running` flag of the macro is false after `run` returns. -/
theorem step_error_logged_and_aborts (ctx : Ctx) (fuel : Nat) (code : String)
    (t : Task) (ts : List Task) (caps : Caps) (s : GState) (e : String)
    (herr : (runTask ctx fuel code t caps s).outcome = .error e) :
    runTasks ctx (fuel + 1) code (t :: ts) caps s =
      ⟨(runTask ctx fuel code t caps s).task :: ts,
       (runTask ctx fuel code t caps s).caps,
       { (runTask ctx fuel code t caps s).state with
         log := ("Macro " ++ code ++ " failed: " ++ e) ::
           (runTask ctx fuel code t caps s).state.log },
       (runTask ctx fuel code t caps s).events, .ok⟩ ∧
    ∀ m : Macro, m.running = false → m.code = code → m.tasks = t :: ts →
      m.capabilities = caps →
      (runMacro ctx (fuel + 2) m s).mac.running = false ∧
      (runMacro ctx (fuel + 2) m s).outcome = .ok := by
  have h1 : runTasks ctx (fuel + 1) code (t :: ts) caps s =
      ⟨(runTask ctx fuel code t caps s).task :: ts,
       (runTask ctx fuel code t caps s).caps,
       { (runTask ctx fuel code t caps s).state with
         log := ("Macro " ++ code ++ " failed: " ++ e) ::
           (runTask ctx fuel code t caps s).state.log },
       (runTask ctx fuel code t caps s).events, .ok⟩ := by
    simp only [runTasks, herr]
  refine ⟨h1, ?_⟩
  intro m hrun hcode htasks hcaps
  obtain ⟨mc, mts, mcaps, mr, mne, mks⟩ := m
  simp only [Macro.running, Macro.code, Macro.tasks, Macro.capabilities]
    at hrun hcode htasks hcaps
  subst hrun hcode htasks hcaps
  simp [runMacro, h1, Macro.running, Macro.code, Macro.tasks, Macro.capabilities]

/-- C6 (witness): `r($x,k(a))` with `x` unset raises a `TypeError` while
resolving the repeat count; the later `k(a)` step is not executed, the
error is logged with the source text, and the run returns normally. -/
theorem step_error_logged_and_aborts_witness :
    runTasks ctxNone 6 "r($x,k(a))" [.repeatT (.vvar "x") kaMac, .key (.vint 30)]
        [] state0 =
      ⟨[.repeatT (.vvar "x") kaMac, .key (.vint 30)], [],
       { state0 with
         log := ["Macro r($x,k(a)) failed: TypeError: Expected parameter to be one of the allowed types, but got None"] },
       [], .ok⟩ :=
  (step_error_logged_and_aborts ctxNone 5 "r($x,k(a))"
    (.repeatT (.vvar "x") kaMac) [.key (.vint 30)] [] state0
    "TypeError: Expected parameter to be one of the allowed types, but got None"
    (by decide)).1

/-! ## The capability invariant (C2) -/

theorem covers_nil (cs : Caps) : covers [] cs := by
  intro e he
  cases he

theorem covers_append {a b : List Event} {cs : Caps} (ha : covers a cs)
    (hb : covers b cs) : covers (a ++ b) cs := by
  intro e he
  rcases List.mem_append.mp he with h | h
  · exact ha e h
  · exact hb e h

theorem covers_mono {evs : List Event} {cs cs' : Caps} (h : covers evs cs)
    (hsub : cs ⊆ cs') : covers evs cs' :=
  fun e he => hsub (h e he)

theorem covers_cons {e : Event} {evs : List Event} {cs : Caps}
    (he : evPair e ∈ cs) (h : covers evs cs) : covers (e :: evs) cs := by
  intro x hx
  rcases List.mem_cons.mp hx with rfl | hx
  · exact he
  · exact h x hx

theorem append_subset_append {α : Type} {a a' b b' : List α}
    (h1 : a ⊆ a') (h2 : b ⊆ b') : a ++ b ⊆ a' ++ b' := by
  intro x hx
  rcases List.mem_append.mp hx with h | h
  · exact List.mem_append.mpr (Or.inl (h1 h))
  · exact List.mem_append.mpr (Or.inr (h2 h))

theorem wellBuiltTask_mono {t : Task} {caps caps' : Caps}
    (hsub : caps ⊆ caps') (h : wellBuiltTask t caps = true) :
    wellBuiltTask t caps' = true := by
  cases t <;>
    simp only [wellBuiltTask, decide_eq_true_eq] at h ⊢ <;>
    first
      | rfl
      | exact h
      | exact hsub h

theorem wellBuiltTasks_mono {ts : List Task} {caps caps' : Caps}
    (hsub : caps ⊆ caps') (h : wellBuiltTasks ts caps = true) :
    wellBuiltTasks ts caps' = true := by
  induction ts with
  | nil => simp [wellBuiltTasks]
  | cons t ts ih =>
    simp only [wellBuiltTasks, Bool.and_eq_true] at h ⊢
    exact ⟨wellBuiltTask_mono hsub h.1, ih h.2⟩

theorem runMouseLoop_events (ctx : Ctx) (fuel : Nat) (code sp : Int) :
    ∀ s : GState, ∀ e ∈ (runMouseLoop ctx fuel code sp s).events,
      e = (.vint EV_REL, .vint code, .vint sp) := by
  induction fuel with
  | zero => intro s e he; simp [runMouseLoop] at he
  | succ fuel ih =>
    intro s e he
    rcases hrh : readHolding s with ⟨s1, hb⟩
    simp only [runMouseLoop, hrh] at he
    cases hb with
    | false => simp at he
    | true =>
      rcases hda : doAwait ctx s1 with ⟨s2, c⟩
      simp only [hda] at he
      cases c with
      | true =>
        simp at he
        simp [he]
      | false =>
        rcases List.mem_cons.mp he with rfl | he
        · rfl
        · exact ih s2 e he

theorem runWheelLoop_events (ctx : Ctx) (fuel : Nat) (code value : Int)
    (rsp : Value) :
    ∀ s : GState, ∀ e ∈ (runWheelLoop ctx fuel code value rsp s).events,
      e = (.vint EV_REL, .vint code, .vint value) := by
  induction fuel with
  | zero => intro s e he; simp [runWheelLoop] at he
  | succ fuel ih =>
    intro s e he
    rcases hrh : readHolding s with ⟨s1, hb⟩
    simp only [runWheelLoop, hrh] at he
    cases hb with
    | false => simp at he
    | true =>
      cases rsp with
      | vint sp =>
        by_cases hsp : sp = 0
        · simp [hsp] at he
          simp [he]
        · rcases hda : doAwait ctx s1 with ⟨s2, c⟩
          simp only [hsp, if_false, hda] at he
          cases c with
          | true =>
            simp at he
            simp [he]
          | false =>
            rcases List.mem_cons.mp he with rfl | he
            · rfl
            · exact ih s2 e he
      | vfloat q => simp at he; simp [he]
      | vstr st => simp at he; simp [he]
      | vnone => simp at he; simp [he]
      | vvar n => simp at he; simp [he]

/-- The run-time capability invariant, proven for all five mutually
recursive interpreter functions at once by induction on the fuel: a
well-built (sub)structure stays well-built, capabilities only grow, and
every event emitted during the run is covered by the capability set *as
it stands when the run ends* (partial — suspended or cancelled — runs
included). -/
theorem runInvariant : ∀ fuel : Nat,
    (∀ ctx m s, wellBuilt m = true →
      wellBuilt (runMacro ctx fuel m s).mac = true ∧
      getCapabilities m ⊆ getCapabilities (runMacro ctx fuel m s).mac ∧
      covers (runMacro ctx fuel m s).events
        (getCapabilities (runMacro ctx fuel m s).mac)) ∧
    (∀ ctx code ts caps s, wellBuiltTasks ts caps = true →
      caps ⊆ (runTasks ctx fuel code ts caps s).caps ∧
      tasksCaps ts ⊆ tasksCaps (runTasks ctx fuel code ts caps s).tasks ∧
      wellBuiltTasks (runTasks ctx fuel code ts caps s).tasks
        (runTasks ctx fuel code ts caps s).caps = true ∧
      covers (runTasks ctx fuel code ts caps s).events
        ((runTasks ctx fuel code ts caps s).caps ++
          tasksCaps (runTasks ctx fuel code ts caps s).tasks)) ∧
    (∀ ctx code t caps s, wellBuiltTask t caps = true →
      caps ⊆ (runTask ctx fuel code t caps s).caps ∧
      taskCaps t ⊆ taskCaps (runTask ctx fuel code t caps s).task ∧
      wellBuiltTask (runTask ctx fuel code t caps s).task
        (runTask ctx fuel code t caps s).caps = true ∧
      covers (runTask ctx fuel code t caps s).events
        ((runTask ctx fuel code t caps s).caps ++
          taskCaps (runTask ctx fuel code t caps s).task)) ∧
    (∀ ctx m s, wellBuilt m = true →
      wellBuilt (runHoldLoop ctx fuel m s).mac = true ∧
      getCapabilities m ⊆ getCapabilities (runHoldLoop ctx fuel m s).mac ∧
      covers (runHoldLoop ctx fuel m s).events
        (getCapabilities (runHoldLoop ctx fuel m s).mac)) ∧
    (∀ ctx m n s, wellBuilt m = true →
      wellBuilt (runRepeatLoop ctx fuel m n s).mac = true ∧
      getCapabilities m ⊆ getCapabilities (runRepeatLoop ctx fuel m n s).mac ∧
      covers (runRepeatLoop ctx fuel m n s).events
        (getCapabilities (runRepeatLoop ctx fuel m n s).mac)) := by
  intro fuel
  induction fuel with
  | zero =>
    refine ⟨?_, ?_, ?_, ?_, ?_⟩
    · intro ctx m s h
      exact ⟨h, List.Subset.refl _, covers_nil _⟩
    · intro ctx code ts caps s h
      cases ts with
      | nil =>
        exact ⟨List.Subset.refl _, List.Subset.refl _, rfl, covers_nil _⟩
      | cons t ts =>
        exact ⟨List.Subset.refl _, List.Subset.refl _, h, covers_nil _⟩
    · intro ctx code t caps s h
      exact ⟨List.Subset.refl _, List.Subset.refl _, h, covers_nil _⟩
    · intro ctx m s h
      exact ⟨h, List.Subset.refl _, covers_nil _⟩
    · intro ctx m n s h
      exact ⟨h, List.Subset.refl _, covers_nil _⟩
  | succ fuel ih =>
    obtain ⟨ihM, ihTs, ihT, ihH, ihR⟩ := ih
    have hM : ∀ ctx m s, wellBuilt m = true →
        wellBuilt (runMacro ctx (fuel + 1) m s).mac = true ∧
        getCapabilities m ⊆ getCapabilities (runMacro ctx (fuel + 1) m s).mac ∧
        covers (runMacro ctx (fuel + 1) m s).events
          (getCapabilities (runMacro ctx (fuel + 1) m s).mac) := by
      intro ctx m s h
      obtain ⟨mc, mts, mcaps, mr, mne, mks⟩ := m
      simp only [runMacro, Macro.running, Macro.code, Macro.tasks, Macro.capabilities]
      cases mr with
      | true =>
        simp only [if_pos]
        exact ⟨h, List.Subset.refl _, covers_nil _⟩
      | false =>
        simp only [Bool.false_eq_true, if_false]
        simp only [wellBuilt] at h
        obtain ⟨hsub, htc, hwb, hcov⟩ := ihTs ctx mc mts mcaps s h
        refine ⟨?_, ?_, ?_⟩
        · simpa [wellBuilt] using hwb
        · simpa [getCapabilities] using append_subset_append hsub htc
        · simpa [getCapabilities] using hcov
    have hHold : ∀ ctx m s, wellBuilt m = true →
        wellBuilt (runHoldLoop ctx (fuel + 1) m s).mac = true ∧
        getCapabilities m ⊆ getCapabilities (runHoldLoop ctx (fuel + 1) m s).mac ∧
        covers (runHoldLoop ctx (fuel + 1) m s).events
          (getCapabilities (runHoldLoop ctx (fuel + 1) m s).mac) := by
      intro ctx m s h
      rcases hrh : readHolding s with ⟨s1, hb⟩
      simp only [runHoldLoop, hrh]
      cases hb with
      | false =>
        simp only [Bool.false_eq_true, if_false]
        exact ⟨h, List.Subset.refl _, covers_nil _⟩
      | true =>
        simp only [if_pos]
        obtain ⟨hwb1, hsub1, hcov1⟩ := ihM ctx m s1 h
        cases ho : (runMacro ctx fuel m s1).outcome with
        | ok =>
          obtain ⟨hwb2, hsub2, hcov2⟩ :=
            ihH ctx (runMacro ctx fuel m s1).mac (runMacro ctx fuel m s1).state hwb1
          exact ⟨hwb2, List.Subset.trans hsub1 hsub2,
            covers_append (covers_mono hcov1 hsub2) hcov2⟩
        | error e => exact ⟨hwb1, hsub1, hcov1⟩
        | cancelled => exact ⟨hwb1, hsub1, hcov1⟩
        | stuck => exact ⟨hwb1, hsub1, hcov1⟩
    have hRep : ∀ ctx m n s, wellBuilt m = true →
        wellBuilt (runRepeatLoop ctx (fuel + 1) m n s).mac = true ∧
        getCapabilities m ⊆ getCapabilities (runRepeatLoop ctx (fuel + 1) m n s).mac ∧
        covers (runRepeatLoop ctx (fuel + 1) m n s).events
          (getCapabilities (runRepeatLoop ctx (fuel + 1) m n s).mac) := by
      intro ctx m n s h
      simp only [runRepeatLoop]
      cases n with
      | zero => exact ⟨h, List.Subset.refl _, covers_nil _⟩
      | succ n =>
        obtain ⟨hwb1, hsub1, hcov1⟩ := ihM ctx m s h
        cases ho : (runMacro ctx fuel m s).outcome with
        | ok =>
          obtain ⟨hwb2, hsub2, hcov2⟩ :=
            ihR ctx (runMacro ctx fuel m s).mac n (runMacro ctx fuel m s).state hwb1
          exact ⟨hwb2, List.Subset.trans hsub1 hsub2,
            covers_append (covers_mono hcov1 hsub2) hcov2⟩
        | error e => exact ⟨hwb1, hsub1, hcov1⟩
        | cancelled => exact ⟨hwb1, hsub1, hcov1⟩
        | stuck => exact ⟨hwb1, hsub1, hcov1⟩
    have hTask : ∀ ctx code t caps s, wellBuiltTask t caps = true →
        caps ⊆ (runTask ctx (fuel + 1) code t caps s).caps ∧
        taskCaps t ⊆ taskCaps (runTask ctx (fuel + 1) code t caps s).task ∧
        wellBuiltTask (runTask ctx (fuel + 1) code t caps s).task
          (runTask ctx (fuel + 1) code t caps s).caps = true ∧
        covers (runTask ctx (fuel + 1) code t caps s).events
          ((runTask ctx (fuel + 1) code t caps s).caps ++
            taskCaps (runTask ctx (fuel + 1) code t caps s).task) := by
      intro ctx code t caps s h
      cases t with
      | holdWait =>
        rcases hda : doAwait ctx s with ⟨s1, c⟩
        simp only [runTask, hda]
        exact ⟨List.Subset.refl _, List.Subset.refl _, h, covers_nil _⟩
      | holdSymbol kcode =>
        simp only [runTask]
        cases hres : resolve s.store kcode (some [some .tint]) with
        | error e =>
          exact ⟨List.Subset.refl _, List.Subset.refl _, h, covers_nil _⟩
        | ok rc =>
          rcases hda : doAwait ctx s with ⟨s1, c⟩
          simp only [hda]
          have hm : (Value.vint EV_KEY, rc) ∈ caps ++ [(Value.vint EV_KEY, rc)] := by
            simp
          cases c with
          | true =>
            refine ⟨List.subset_append_left _ _, List.Subset.refl _,
              wellBuiltTask_mono (List.subset_append_left _ _) h, ?_⟩
            exact covers_cons (List.mem_append.mpr (Or.inl hm)) (covers_nil _)
          | false =>
            refine ⟨List.subset_append_left _ _, List.Subset.refl _,
              wellBuiltTask_mono (List.subset_append_left _ _) h, ?_⟩
            exact covers_cons (List.mem_append.mpr (Or.inl hm))
              (covers_cons (List.mem_append.mpr (Or.inl hm)) (covers_nil _))
      | holdMacro child =>
        simp only [runTask]
        simp only [wellBuiltTask] at h
        obtain ⟨hwb, hsub, hcov⟩ := ihH ctx child s h
        refine ⟨List.Subset.refl _, ?_, ?_, ?_⟩
        · simpa [taskCaps] using hsub
        · simpa [wellBuiltTask] using hwb
        · simpa [taskCaps] using
            covers_mono hcov (List.subset_append_right _ _)
      | modify mcode child =>
        simp only [runTask]
        simp only [wellBuiltTask] at h
        have hcs : caps ⊆ caps ++ [(Value.vint EV_KEY, Value.vint mcode)] :=
          List.subset_append_left _ _
        have hmm : (Value.vint EV_KEY, Value.vint mcode) ∈
            caps ++ [(Value.vint EV_KEY, Value.vint mcode)] := by simp
        rcases hd1 : doAwait ctx s with ⟨s1, c1⟩
        simp only [hd1]
        cases c1 with
        | true =>
          refine ⟨hcs, List.Subset.refl _, ?_, covers_nil _⟩
          simpa [wellBuiltTask] using h
        | false =>
          rcases hd2 : doAwait ctx s1 with ⟨s2, c2⟩
          simp only [hd2]
          cases c2 with
          | true =>
            refine ⟨hcs, List.Subset.refl _, ?_, ?_⟩
            · simpa [wellBuiltTask] using h
            · exact covers_cons (List.mem_append.mpr (Or.inl hmm)) (covers_nil _)
          | false =>
            obtain ⟨hwb, hsub, hcov⟩ := ihM ctx child s2 h
            have hcov' : covers (runMacro ctx fuel child s2).events
                ((caps ++ [(Value.vint EV_KEY, Value.vint mcode)]) ++
                  taskCaps (.modify mcode (runMacro ctx fuel child s2).mac)) := by
              refine covers_mono hcov ?_
              intro x hx
              exact List.mem_append.mpr (Or.inr (by simpa [taskCaps] using hx))
            have hsub' : taskCaps (Task.modify mcode child) ⊆
                taskCaps (.modify mcode (runMacro ctx fuel child s2).mac) := by
              simpa [taskCaps] using hsub
            have hwb' : wellBuiltTask (.modify mcode (runMacro ctx fuel child s2).mac)
                (caps ++ [(Value.vint EV_KEY, Value.vint mcode)]) = true := by
              simpa [wellBuiltTask] using hwb
            cases ho : (runMacro ctx fuel child s2).outcome with
            | ok =>
              rcases hd3 : doAwait ctx (runMacro ctx fuel child s2).state with ⟨s3, c3⟩
              simp only [hd3]
              cases c3 with
              | true =>
                exact ⟨hcs, hsub', hwb',
                  covers_cons (List.mem_append.mpr (Or.inl hmm)) hcov'⟩
              | false =>
                rcases hd4 : doAwait ctx s3 with ⟨s4, c4⟩
                simp only [hd4]
                have hev : covers ((Value.vint EV_KEY, Value.vint mcode, Value.vint 1) ::
                    ((runMacro ctx fuel child s2).events ++
                      [(Value.vint EV_KEY, Value.vint mcode, Value.vint 0)]))
                    ((caps ++ [(Value.vint EV_KEY, Value.vint mcode)]) ++
                      taskCaps (.modify mcode (runMacro ctx fuel child s2).mac)) := by
                  refine covers_cons (List.mem_append.mpr (Or.inl hmm)) ?_
                  refine covers_append hcov' ?_
                  exact covers_cons (List.mem_append.mpr (Or.inl hmm)) (covers_nil _)
                cases c4 with
                | true => exact ⟨hcs, hsub', hwb', hev⟩
                | false => exact ⟨hcs, hsub', hwb', hev⟩
            | error e =>
              exact ⟨hcs, hsub', hwb',
                covers_cons (List.mem_append.mpr (Or.inl hmm)) hcov'⟩
            | cancelled =>
              exact ⟨hcs, hsub', hwb',
                covers_cons (List.mem_append.mpr (Or.inl hmm)) hcov'⟩
            | stuck =>
              exact ⟨hcs, hsub', hwb',
                covers_cons (List.mem_append.mpr (Or.inl hmm)) hcov'⟩
      | repeatT repeats child =>
        simp only [runTask]
        simp only [wellBuiltTask] at h
        cases hres : resolve s.store repeats (some [some .tint]) with
        | error e =>
          refine ⟨List.Subset.refl _, List.Subset.refl _, ?_, covers_nil _⟩
          simpa [wellBuiltTask] using h
        | ok rv =>
          cases rv with
          | vint n =>
            obtain ⟨hwb, hsub, hcov⟩ := ihR ctx child n.toNat s h
            refine ⟨List.Subset.refl _, ?_, ?_, ?_⟩
            · simpa [taskCaps] using hsub
            · simpa [wellBuiltTask] using hwb
            · simpa [taskCaps] using
                covers_mono hcov (List.subset_append_right _ _)
          | vfloat q =>
            refine ⟨List.Subset.refl _, List.Subset.refl _, ?_, covers_nil _⟩
            simpa [wellBuiltTask] using h
          | vstr st =>
            refine ⟨List.Subset.refl _, List.Subset.refl _, ?_, covers_nil _⟩
            simpa [wellBuiltTask] using h
          | vnone =>
            refine ⟨List.Subset.refl _, List.Subset.refl _, ?_, covers_nil _⟩
            simpa [wellBuiltTask] using h
          | vvar nm =>
            refine ⟨List.Subset.refl _, List.Subset.refl _, ?_, covers_nil _⟩
            simpa [wellBuiltTask] using h
      | key kcode =>
        simp only [runTask]
        simp only [wellBuiltTask, decide_eq_true_eq] at h
        have hm : evPair (Value.vint EV_KEY, kcode, Value.vint 1) ∈
            caps ++ taskCaps (Task.key kcode) :=
          List.mem_append.mpr (Or.inl h)
        have hm0 : evPair (Value.vint EV_KEY, kcode, Value.vint 0) ∈
            caps ++ taskCaps (Task.key kcode) :=
          List.mem_append.mpr (Or.inl h)
        rcases hd1 : doAwait ctx s with ⟨s1, c1⟩
        simp only [hd1]
        cases c1 with
        | true =>
          refine ⟨List.Subset.refl _, List.Subset.refl _, ?_, ?_⟩
          · simp [wellBuiltTask, h]
          · exact covers_cons hm (covers_nil _)
        | false =>
          rcases hd2 : doAwait ctx s1 with ⟨s2, c2⟩
          simp only [hd2]
          have hc : covers [(Value.vint EV_KEY, kcode, Value.vint 1),
              (Value.vint EV_KEY, kcode, Value.vint 0)]
              (caps ++ taskCaps (Task.key kcode)) :=
            covers_cons hm (covers_cons hm0 (covers_nil _))
          cases c2 with
          | true =>
            refine ⟨List.Subset.refl _, List.Subset.refl _, ?_, hc⟩
            simp [wellBuiltTask, h]
          | false =>
            refine ⟨List.Subset.refl _, List.Subset.refl _, ?_, hc⟩
            simp [wellBuiltTask, h]
      | event type_ ecode value =>
        simp only [runTask]
        simp only [wellBuiltTask, decide_eq_true_eq] at h
        refine ⟨List.Subset.refl _, List.Subset.refl _, ?_, ?_⟩
        · simp [wellBuiltTask, h]
        · exact covers_cons (List.mem_append.mpr (Or.inl h)) (covers_nil _)
      | keycodePause =>
        rcases hda : doAwait ctx s with ⟨s1, c⟩
        simp only [runTask, hda]
        exact ⟨List.Subset.refl _, List.Subset.refl _, h, covers_nil _⟩
      | mouse mcode sign speed =>
        simp only [runTask]
        simp only [wellBuiltTask, decide_eq_true_eq] at h
        cases hres : resolve s.store speed (some [some .tint]) with
        | error e =>
          refine ⟨List.Subset.refl _, List.Subset.refl _, ?_, covers_nil _⟩
          simp [wellBuiltTask, h]
        | ok rv =>
          cases rv with
          | vint sp =>
            refine ⟨List.Subset.refl _, List.Subset.refl _, ?_, ?_⟩
            · simp [wellBuiltTask, h]
            · intro e he
              have := runMouseLoop_events ctx fuel mcode (sign * sp) s e he
              rw [this]
              exact List.mem_append.mpr (Or.inl h)
          | vfloat q =>
            refine ⟨List.Subset.refl _, List.Subset.refl _, ?_, covers_nil _⟩
            simp [wellBuiltTask, h]
          | vstr st =>
            refine ⟨List.Subset.refl _, List.Subset.refl _, ?_, covers_nil _⟩
            simp [wellBuiltTask, h]
          | vnone =>
            refine ⟨List.Subset.refl _, List.Subset.refl _, ?_, covers_nil _⟩
            simp [wellBuiltTask, h]
          | vvar nm =>
            refine ⟨List.Subset.refl _, List.Subset.refl _, ?_, covers_nil _⟩
            simp [wellBuiltTask, h]
      | wheel wcode value speed =>
        simp only [runTask]
        simp only [wellBuiltTask, decide_eq_true_eq] at h
        cases hres : resolve s.store speed (some [some .tint]) with
        | error e =>
          refine ⟨List.Subset.refl _, List.Subset.refl _, ?_, covers_nil _⟩
          simp [wellBuiltTask, h]
        | ok rv =>
          refine ⟨List.Subset.refl _, List.Subset.refl _, ?_, ?_⟩
          · simp [wellBuiltTask, h]
          · intro e he
            have := runWheelLoop_events ctx fuel wcode value rv s e he
            rw [this]
            exact List.mem_append.mpr (Or.inl h)
      | wait time =>
        simp only [runTask]
        cases hres : resolve s.store time (some [some .tint, some .tfloat]) with
        | error e =>
          exact ⟨List.Subset.refl _, List.Subset.refl _, h, covers_nil _⟩
        | ok rv =>
          cases rv with
          | vint n =>
            rcases hda : doAwait ctx s with ⟨s1, c⟩
            simp only [hda]
            exact ⟨List.Subset.refl _, List.Subset.refl _, h, covers_nil _⟩
          | vfloat q =>
            rcases hda : doAwait ctx s with ⟨s1, c⟩
            simp only [hda]
            exact ⟨List.Subset.refl _, List.Subset.refl _, h, covers_nil _⟩
          | vstr st =>
            rcases hda : doAwait ctx s with ⟨s1, c⟩
            simp only [hda]
            exact ⟨List.Subset.refl _, List.Subset.refl _, h, covers_nil _⟩
          | vnone =>
            rcases hda : doAwait ctx s with ⟨s1, c⟩
            simp only [hda]
            exact ⟨List.Subset.refl _, List.Subset.refl _, h, covers_nil _⟩
          | vvar nm =>
            exact ⟨List.Subset.refl _, List.Subset.refl _, h, covers_nil _⟩
      | setVar varname value =>
        simp only [runTask]
        exact ⟨List.Subset.refl _, List.Subset.refl _, h, covers_nil _⟩
      | ifeqT varname value then_ else_ =>
        simp only [runTask]
        simp only [wellBuiltTask, Bool.and_eq_true] at h
        cases hpe : pyEq (ifeqLookup s.store varname) value with
        | true =>
          simp only [if_pos]
          cases then_ with
          | none =>
            refine ⟨List.Subset.refl _, List.Subset.refl _, ?_, covers_nil _⟩
            simp [wellBuiltTask, h.1, h.2]
          | some th =>
            simp only [wellBuiltOpt] at h
            obtain ⟨hwb, hsub, hcov⟩ := ihM ctx th s h.1
            refine ⟨List.Subset.refl _, ?_, ?_, ?_⟩
            · simp only [taskCaps, optionCaps]
              exact append_subset_append hsub (List.Subset.refl _)
            · simp [wellBuiltTask, wellBuiltOpt, hwb, h.2]
            · refine covers_mono hcov ?_
              intro x hx
              refine List.mem_append.mpr (Or.inr ?_)
              simp only [taskCaps, optionCaps]
              exact List.mem_append.mpr (Or.inl hx)
        | false =>
          simp only [Bool.false_eq_true, if_false]
          cases else_ with
          | none =>
            refine ⟨List.Subset.refl _, List.Subset.refl _, ?_, covers_nil _⟩
            simp [wellBuiltTask, h.1, h.2]
          | some el =>
            simp only [wellBuiltOpt] at h
            obtain ⟨hwb, hsub, hcov⟩ := ihM ctx el s h.2
            refine ⟨List.Subset.refl _, ?_, ?_, ?_⟩
            · simp only [taskCaps, optionCaps]
              exact append_subset_append (List.Subset.refl _) hsub
            · simp [wellBuiltTask, wellBuiltOpt, hwb, h.1]
            · refine covers_mono hcov ?_
              intro x hx
              refine List.mem_append.mpr (Or.inr ?_)
              simp only [taskCaps, optionCaps]
              exact List.mem_append.mpr (Or.inr hx)
      | ifEq v1 v2 then_ else_ =>
        simp only [runTask]
        simp only [wellBuiltTask, Bool.and_eq_true] at h
        cases hpe : pyEq (resolveRaw s.store v1) (resolveRaw s.store v2) with
        | true =>
          simp only [if_pos]
          cases then_ with
          | none =>
            refine ⟨List.Subset.refl _, List.Subset.refl _, ?_, covers_nil _⟩
            simp [wellBuiltTask, h.1, h.2]
          | some th =>
            simp only [wellBuiltOpt] at h
            obtain ⟨hwb, hsub, hcov⟩ := ihM ctx th s h.1
            refine ⟨List.Subset.refl _, ?_, ?_, ?_⟩
            · simp only [taskCaps, optionCaps]
              exact append_subset_append hsub (List.Subset.refl _)
            · simp [wellBuiltTask, wellBuiltOpt, hwb, h.2]
            · refine covers_mono hcov ?_
              intro x hx
              refine List.mem_append.mpr (Or.inr ?_)
              simp only [taskCaps, optionCaps]
              exact List.mem_append.mpr (Or.inl hx)
        | false =>
          simp only [Bool.false_eq_true, if_false]
          cases else_ with
          | none =>
            refine ⟨List.Subset.refl _, List.Subset.refl _, ?_, covers_nil _⟩
            simp [wellBuiltTask, h.1, h.2]
          | some el =>
            simp only [wellBuiltOpt] at h
            obtain ⟨hwb, hsub, hcov⟩ := ihM ctx el s h.2
            refine ⟨List.Subset.refl _, ?_, ?_, ?_⟩
            · simp only [taskCaps, optionCaps]
              exact append_subset_append (List.Subset.refl _) hsub
            · simp [wellBuiltTask, wellBuiltOpt, hwb, h.1]
            · refine covers_mono hcov ?_
              intro x hx
              refine List.mem_append.mpr (Or.inr ?_)
              simp only [taskCaps, optionCaps]
              exact List.mem_append.mpr (Or.inr hx)
    have hTasks : ∀ ctx code ts caps s, wellBuiltTasks ts caps = true →
        caps ⊆ (runTasks ctx (fuel + 1) code ts caps s).caps ∧
        tasksCaps ts ⊆ tasksCaps (runTasks ctx (fuel + 1) code ts caps s).tasks ∧
        wellBuiltTasks (runTasks ctx (fuel + 1) code ts caps s).tasks
          (runTasks ctx (fuel + 1) code ts caps s).caps = true ∧
        covers (runTasks ctx (fuel + 1) code ts caps s).events
          ((runTasks ctx (fuel + 1) code ts caps s).caps ++
            tasksCaps (runTasks ctx (fuel + 1) code ts caps s).tasks) := by
      intro ctx code ts caps s h
      cases ts with
      | nil =>
        exact ⟨List.Subset.refl _, List.Subset.refl _, rfl, covers_nil _⟩
      | cons t ts =>
        simp only [runTasks]
        simp only [wellBuiltTasks, Bool.and_eq_true] at h
        obtain ⟨h1sub, h1tc, h1wb, h1cov⟩ := ihT ctx code t caps s h.1
        cases ho : (runTask ctx fuel code t caps s).outcome with
        | ok =>
          obtain ⟨h2sub, h2tc, h2wb, h2cov⟩ :=
            ihTs ctx code ts (runTask ctx fuel code t caps s).caps
              (runTask ctx fuel code t caps s).state
              (wellBuiltTasks_mono h1sub h.2)
          refine ⟨List.Subset.trans h1sub h2sub, ?_, ?_, ?_⟩
          · simp only [tasksCaps]
            exact append_subset_append h1tc h2tc
          · simp only [wellBuiltTasks, Bool.and_eq_true]
            exact ⟨wellBuiltTask_mono h2sub h1wb, h2wb⟩
          · refine covers_append ?_ ?_
            · refine covers_mono h1cov ?_
              simp only [tasksCaps]
              refine append_subset_append h2sub ?_
              exact List.subset_append_left _ _
            · refine covers_mono h2cov ?_
              simp only [tasksCaps]
              refine append_subset_append (List.Subset.refl _) ?_
              exact List.subset_append_right _ _
        | error e =>
          refine ⟨h1sub, ?_, ?_, ?_⟩
          · simp only [tasksCaps]
            exact append_subset_append h1tc (List.Subset.refl _)
          · simp only [wellBuiltTasks, Bool.and_eq_true]
            exact ⟨h1wb, wellBuiltTasks_mono h1sub h.2⟩
          · refine covers_mono h1cov ?_
            simp only [tasksCaps]
            refine append_subset_append (List.Subset.refl _) ?_
            exact List.subset_append_left _ _
        | cancelled =>
          refine ⟨h1sub, ?_, ?_, ?_⟩
          · simp only [tasksCaps]
            exact append_subset_append h1tc (List.Subset.refl _)
          · simp only [wellBuiltTasks, Bool.and_eq_true]
            exact ⟨h1wb, wellBuiltTasks_mono h1sub h.2⟩
          · refine covers_mono h1cov ?_
            simp only [tasksCaps]
            refine append_subset_append (List.Subset.refl _) ?_
            exact List.subset_append_left _ _
        | stuck =>
          refine ⟨h1sub, ?_, ?_, ?_⟩
          · simp only [tasksCaps]
            exact append_subset_append h1tc (List.Subset.refl _)
          · simp only [wellBuiltTasks, Bool.and_eq_true]
            exact ⟨h1wb, wellBuiltTasks_mono h1sub h.2⟩
          · refine covers_mono h1cov ?_
            simp only [tasksCaps]
            refine append_subset_append (List.Subset.refl _) ?_
            exact List.subset_append_left _ _
    exact ⟨hM, hTasks, hTask, hHold, hRep⟩

/-- C2 (counterexample): `h($foo)` builds successfully; its build-time
capability set contains only the `Variable` object itself, and with
`foo = 30` in the store a run emits `(EV_KEY, 30, 1)` whose
`(type, code)` pair is *not* in the `get_capabilities` of the built
macro — the set only catches up when the step adds the resolved code at
execution time.  So the aggregated capabilities of a successfully built
macro are not a superset of everything its runs emit. -/
theorem built_caps_miss_late_bound_code :
    (addHold (Macro.new "h($foo)") (.val (.vvar "foo"))).isOk = true ∧
    (Value.vint EV_KEY, Value.vint 30, Value.vint 1) ∈
      (runMacro ctxNone 10 holdFooMac stateFoo30).events ∧
    (Value.vint EV_KEY, Value.vint 30) ∉ getCapabilities holdFooMac := by
  decide

/-- C2 (amended): for every well-built macro (the builders declare the
build-time `(type, code)` pair of every literal-code emitting step and
register all children) and for *every* run — any fuel, cancellation
point, store and trigger schedule, partial or complete — every
`(type, code)` pair passed to the handler is contained in the
aggregated `get_capabilities` of the macro **as the run leaves it**:
the hold-symbol and modify steps add their resolved code to the
capability set before emitting, so the superset guarantee holds for the
runtime-updated set, not for the build-time one (see the
counterexample). -/
theorem run_events_covered_by_final_caps (fuel : Nat) (ctx : Ctx) (m : Macro)
    (s : GState) (h : wellBuilt m = true) :
    ∀ e ∈ (runMacro ctx fuel m s).events,
      (e.1, e.2.1) ∈ getCapabilities (runMacro ctx fuel m s).mac :=
  fun e he => ((runInvariant fuel).1 ctx m s h).2.2 e he

/-- C2 (witness for the amended theorem): the late-bound `h($foo)` run
with `foo = 30` leaves `(EV_KEY, 30)` in the final capability set. -/
theorem run_events_covered_by_final_caps_witness :
    (Value.vint EV_KEY, Value.vint 30) ∈
      getCapabilities (runMacro ctxNone 10 holdFooMac stateFoo30).mac :=
  run_events_covered_by_final_caps 10 ctxNone holdFooMac stateFoo30 (by decide)
    (Value.vint EV_KEY, Value.vint 30, Value.vint 1) (by decide)

end Remapper
